import Mathlib

/-!
Verification development for the sampler-chain wrapper
(src/llama-cpp-2/src/sampler_chain.rs and sampler_chain/params.rs).

The Rust code under src/ is a thin safe wrapper: every method forwards to a
C function of llama_cpp_sys_2 (llama_sampler_chain_add, llama_sampler_sample,
llama_sampler_accept, llama_sampler_reset, llama_sampler_init_*).  The bodies
of those C functions are not part of src/, so they are modelled here from the
specification (spec.md sections 3, 4, 6, 7); each such definition carries a
doc comment starting with the words Modelled from the spec.  The wrapper
functions themselves (LlamaSampler.sample, LlamaSampler.accept,
LlamaSampler.reset, the add builders, the params struct) are translated
directly from the Rust source.

Floating point values (f32 in the source) are embedded as real numbers;
rational literals are used for stage parameters so that parameter validation
stays decidable.  Token ids (llama_token, an i32) are embedded as Int.
-/

noncomputable section

/-- Construction-time error kind of the spec (section 7): invalid stage
parameters are rejected when the stage is built.  In the Rust wrapper a failed
stage construction surfaces as a panic inside the add builder (the expect call
on the null pointer returned by llama_sampler_init_*); the panic is embedded
as this error value. -/
inductive ConstructionError where
  | invalidParam
deriving DecidableEq

/-- Sampling-time error kinds of the spec (section 7).  The Rust wrapper sample
method has no error channel at all (it returns a plain LlamaToken); its result
is embedded into an Except over this type so that the error-reporting claims of
the spec can be stated.  The code-side sample never produces an error value. -/
inductive SampleError where
  | emptyDistribution
  | numeric
deriving DecidableEq

/-- Modelled from the spec (section 4.2 table): the stage variants of the
sampler chain together with their configured parameters.  Only the variants
whose add builder appears in the Rust wrapper and whose behavior the spec
describes in closed form are modelled: dist, top_k, top_p, min_p, temp,
softmax, penalties, greedy, mirostat (v1) and mirostat_v2. -/
inductive StageKind where
  | dist (seed : Nat)
  | top_k (k : Nat)
  | top_p (p : ℚ) (min_keep : Nat)
  | min_p (p : ℚ) (min_keep : Nat)
  | temp (t : ℚ)
  | softmax
  | penalties (n_vocab : Int) (special_eos_id : Int) (linefeed_id : Int)
      (penalty_last_n : Int) (penalty_repeat : ℚ) (penalty_freq : ℚ)
      (penalty_presence : ℚ) (penalize_nl : Bool) (ignore_eos : Bool)
  | greedy
  | mirostat (n_vocab : Int) (seed : Nat) (tau : ℚ) (eta : ℚ) (m : Int)
  | mirostat_v2 (seed : Nat) (tau : ℚ) (eta : ℚ)

/-- Modelled from the spec (section 3, History): the per-stage persistent
state.  kind holds the configured parameters; ring is the repetition ring
buffer of recently accepted token ids (penalty stages); mu is the entropy
tracker (mirostat stages); lastProbs is the probability distribution the
mirostat stage observed when it last sampled, needed to compute the observed
surprise of an accepted token; draws counts how often the private RNG of the
stage has been advanced. -/
structure StageState where
  kind : StageKind
  ring : List Int
  mu : ℝ
  lastProbs : List (Int × ℝ)
  draws : Nat

/-- Modelled from the spec (sections 3 and 4.2): the initial value of the
mirostat entropy tracker is 2 * tau; stages without a tracker carry 0. -/
def initMu : StageKind → ℝ
  | .mirostat _ _ tau _ _ => 2 * (tau : ℝ)
  | .mirostat_v2 _ tau _ => 2 * (tau : ℝ)
  | _ => 0

/-- Modelled from the spec: a freshly constructed stage has an empty ring
buffer, the initial mu tracker, no recorded distribution and a fresh RNG. -/
def initStage (k : StageKind) : StageState :=
  ⟨k, [], initMu k, [], 0⟩

/-- The History projection of a stage: the repetition ring buffer and the mu
tracker, exactly the state the spec (section 3) calls History.  The lastProbs
and draws fields are sampling bookkeeping, not History. -/
def historyOf (st : StageState) : List Int × ℝ :=
  (st.ring, st.mu)

/-- Modelled from the spec (section 3, Distribution): the mutable working set
of token/score pairs for one sampling step, plus the token id selected by a
terminal stage (none while no terminal stage has run). -/
structure Distribution where
  entries : List (Int × ℝ)
  selected : Option Int

/-- Modelled from the spec (section 4.1, from_logits): build an unsorted
Distribution in logit domain with one entry per vocabulary id equal to its
index. -/
def fromLogits (logits : List ℝ) : Distribution :=
  ⟨logits.enum.map (fun e => ((e.1 : Int), e.2)), none⟩

/-- The sorting relation of the spec (section 4.1, sort_descending): value
descending, ties broken by ascending token id. -/
def descRel (a b : Int × ℝ) : Prop :=
  b.2 < a.2 ∨ (a.2 = b.2 ∧ a.1 ≤ b.1)

instance : DecidableRel descRel :=
  fun a b => by unfold descRel; infer_instance

instance : IsTotal (Int × ℝ) descRel := by
  constructor
  intro a b
  rcases lt_trichotomy a.2 b.2 with h | h | h
  · exact Or.inr (Or.inl h)
  · rcases Int.le_total a.1 b.1 with hle | hle
    · exact Or.inl (Or.inr ⟨h, hle⟩)
    · exact Or.inr (Or.inr ⟨h.symm, hle⟩)
  · exact Or.inl (Or.inl h)

instance : IsTrans (Int × ℝ) descRel := by
  constructor
  intro a b c hab hbc
  rcases hab with h1 | ⟨h1, h1a⟩ <;> rcases hbc with h2 | ⟨h2, h2a⟩
  · exact Or.inl (lt_trans h2 h1)
  · exact Or.inl (h2 ▸ h1)
  · exact Or.inl (h1 ▸ h2)
  · exact Or.inr ⟨h1.trans h2, le_trans h1a h2a⟩

/-- Modelled from the spec (section 4.1, sort_descending): order entries by
value descending, ties broken by ascending token id. -/
def sortDescEntries (l : List (Int × ℝ)) : List (Int × ℝ) :=
  List.insertionSort descRel l

/-- The maximum score occurring in an entry list (0 on an empty list; only
used on non-empty lists). -/
def maxValue : List (Int × ℝ) → ℝ
  | [] => 0
  | e :: rest => (rest.map Prod.snd).foldl max e.2

/-- Modelled from the spec (section 4.1, softmax): convert logit domain to
probability domain, numerically stable by subtracting the maximum logit before
exponentiating and dividing by the sum; on an empty set it is a no-op. -/
def softmaxEntries (l : List (Int × ℝ)) : List (Int × ℝ) :=
  match l with
  | [] => []
  | _ :: _ =>
    l.map (fun e =>
      (e.1, Real.exp (e.2 - maxValue l) /
        (l.map (fun x => Real.exp (x.2 - maxValue l))).sum))

/-- Modelled from the spec (section 4.2, TopK): the entries retained by the
top-k stage, namely the first k entries of the descending sort (k clamped to
the available count by List.take). -/
def topKEntries (k : Nat) (l : List (Int × ℝ)) : List (Int × ℝ) :=
  (sortDescEntries l).take k

/-- The entries the top-k stage discards: the remainder of the descending
sort after the retained prefix. -/
def topKDiscarded (k : Nat) (l : List (Int × ℝ)) : List (Int × ℝ) :=
  (sortDescEntries l).drop k

/-- Modelled from the spec (section 4.2, TopP): the length of the smallest
prefix whose cumulative mass reaches the target (the whole list when the total
mass stays below the target). -/
def massPrefixLen (target : ℝ) : List (Int × ℝ) → Nat
  | [] => 0
  | e :: rest => if target ≤ e.2 then 1 else 1 + massPrefixLen (target - e.2) rest

/-- Modelled from the spec (section 4.2, TopP): softmax, sort descending,
accumulate probability mass from the top until the cumulative mass reaches p,
keep that prefix, respecting the min_keep floor. -/
def topPEntries (p : ℚ) (min_keep : Nat) (l : List (Int × ℝ)) : List (Int × ℝ) :=
  let s := sortDescEntries (softmaxEntries l)
  s.take (max (massPrefixLen (p : ℝ) s) min_keep)

/-- Modelled from the spec (section 4.2, MinP): softmax, keep the entries with
probability at least p times the maximum probability, respecting the min_keep
floor (realized on the descending sort, where the passing entries form a
prefix). -/
def minPEntries (p : ℚ) (min_keep : Nat) (l : List (Int × ℝ)) : List (Int × ℝ) :=
  let s := sortDescEntries (softmaxEntries l)
  s.take (max (s.countP (fun e => if (p : ℝ) * maxValue s ≤ e.2 then true else false)) min_keep)

/-- Modelled from the spec (section 4.2, Temperature): divide every logit by
the temperature. -/
def tempEntries (t : ℚ) (l : List (Int × ℝ)) : List (Int × ℝ) :=
  l.map (fun e => (e.1, e.2 / (t : ℝ)))

/-- Modelled from the spec (section 4.2, RepetitionPenalties): the penalized
value of one logit given the occurrence count of its token inside the ring
buffer window; scale by penalty_repeat if negative else divide, then subtract
penalty_freq * count + penalty_presence when the count is positive. -/
def penalizeValue (penalty_repeat penalty_freq penalty_presence : ℚ) (cnt : Nat) (v : ℝ) : ℝ :=
  if cnt = 0 then v
  else (if v < 0 then v * (penalty_repeat : ℝ) else v / (penalty_repeat : ℝ))
    - ((penalty_freq : ℝ) * cnt + (penalty_presence : ℝ))

/-- Modelled from the spec (section 4.2, RepetitionPenalties): penalize every
token occurring in the ring buffer of recently accepted tokens; the linefeed
token is left unmodified when penalize_nl is false, and the EOS token is
excluded from penalization when ignore_eos is true. -/
def penaltiesEntries (special_eos_id linefeed_id : Int)
    (penalty_repeat penalty_freq penalty_presence : ℚ)
    (penalize_nl ignore_eos : Bool) (ring : List Int)
    (l : List (Int × ℝ)) : List (Int × ℝ) :=
  l.map (fun e =>
    if (e.1 = linefeed_id ∧ penalize_nl = false) ∨ (e.1 = special_eos_id ∧ ignore_eos = true)
    then e
    else (e.1, penalizeValue penalty_repeat penalty_freq penalty_presence (ring.count e.1) e.2))

/-- Modelled from the spec (section 4.2, Greedy): select the entry with the
maximum value, ties broken by lowest token id.  Deterministic: the selection
is a pure function of the entry list and takes no RNG input. -/
def greedySelect : List (Int × ℝ) → Option (Int × ℝ)
  | [] => none
  | e :: rest =>
    match greedySelect rest with
    | none => some e
    | some b => if b.2 < e.2 ∨ (e.2 = b.2 ∧ e.1 < b.1) then some e else some b

/-- Modelled from the spec (section 2, RNG Source): the spec requires a seeded
pseudo-random generator per stage but does not fix the algorithm; it is
modelled as a linear congruential generator.  No claim depends on the values
it produces. -/
def lcg_next (x : Nat) : Nat :=
  (1103515245 * x + 12345) % 4294967296

/-- Iterate the linear congruential generator n times from the seed. -/
def lcg_iter : Nat → Nat → Nat
  | 0, x => x
  | n + 1, x => lcg_next (lcg_iter n x)

/-- The n-th unit-interval draw of the RNG seeded with seed. -/
def rngUnit (seed n : Nat) : ℝ :=
  (lcg_iter (n + 1) seed : ℝ) / 4294967296

/-- Modelled from the spec (section 4.2, Distribution stage): walk the
probability list from the front and pick the first token whose mass covers the
remaining draw; none on an empty list. -/
def pickByMass (u : ℝ) : List (Int × ℝ) → Option Int
  | [] => none
  | e :: rest => if u ≤ e.2 then some e.1 else pickByMass (u - e.2) rest

/-- Modelled from the spec (glossary): the observed surprise of a probability,
minus the base-two logarithm. -/
def surpriseOf (p : ℝ) : ℝ :=
  -(Real.logb 2 p)

/-- Modelled from the spec (section 4.2, MirostatV1): the truncation point is
estimated from mu by a Zipf-law approximation; the spec does not give the
estimate in closed form, so it is modelled as the number of candidates whose
surprise a Zipf-shaped distribution keeps below mu, clamped to the available
count and to at least one entry.  No claim depends on its value. -/
def zipfTruncationK (mu : ℝ) (m : Int) (n : Nat) : Nat :=
  min n (max 1 (min (Nat.floor ((2 : ℝ) ^ mu)) m.toNat))

/-- Look up the probability recorded for a token id in a probability list. -/
def lookupProb (t : Int) (l : List (Int × ℝ)) : Option ℝ :=
  (l.find? (fun e => e.1 == t)).map Prod.snd

/-- Modelled from the spec (section 4.2): apply one stage to the working
Distribution, returning the transformed Distribution and the stage state after
the step.  Terminal stages record their choice in the selected field.  The
mirostat stages record the distribution they drew from (needed on accept) and
the drawing stages advance their RNG; no stage touches its History (ring
buffer or mu tracker) here. -/
def applyStage (st : StageState) (d : Distribution) : Distribution × StageState :=
  match st.kind with
  | .temp t => (⟨tempEntries t d.entries, d.selected⟩, st)
  | .softmax => (⟨softmaxEntries d.entries, d.selected⟩, st)
  | .top_k k => (⟨topKEntries k d.entries, d.selected⟩, st)
  | .top_p p mk => (⟨topPEntries p mk d.entries, d.selected⟩, st)
  | .min_p p mk => (⟨minPEntries p mk d.entries, d.selected⟩, st)
  | .penalties _ eos nl _ pr pf pp pnl ieos =>
      (⟨penaltiesEntries eos nl pr pf pp pnl ieos st.ring d.entries, d.selected⟩, st)
  | .greedy => (⟨d.entries, (greedySelect d.entries).map Prod.fst⟩, st)
  | .dist seed =>
      let probs := softmaxEntries d.entries
      (⟨probs, pickByMass (rngUnit seed st.draws) probs⟩,
        { st with draws := st.draws + 1 })
  | .mirostat _ seed _ _ m =>
      let probs := sortDescEntries (softmaxEntries d.entries)
      let kept := probs.take (zipfTruncationK st.mu m probs.length)
      let final := softmaxEntries kept
      (⟨final, pickByMass (rngUnit seed st.draws) final⟩,
        { st with lastProbs := final, draws := st.draws + 1 })
  | .mirostat_v2 seed _ _ =>
      let probs := softmaxEntries d.entries
      let kept := probs.filter (fun e => if surpriseOf e.2 ≤ st.mu then true else false)
      let final := softmaxEntries kept
      (⟨final, pickByMass (rngUnit seed st.draws) final⟩,
        { st with lastProbs := final, draws := st.draws + 1 })

/-- The sampler chain owned by the wrapper: the ordered list of stage states.
The Rust LlamaSampler owns an opaque llama_sampler pointer; the chain behind
that pointer is modelled explicitly. -/
abbrev LlamaSampler := List StageState

/-- The History of a whole chain: the History projection of every stage, in
registered order. -/
def chainHistory (c : LlamaSampler) : List (List Int × ℝ) :=
  c.map historyOf

/-- Modelled from the spec (sections 2 and 4): run the stages over the working
Distribution in registered order, threading the Distribution through and
collecting the updated stage states in the same order. -/
def runStages : List StageState → Distribution → Distribution × List StageState
  | [], d => (d, [])
  | s :: rest, d =>
    let r1 := applyStage s d
    let r2 := runStages rest r1.1
    (r2.1, r1.2 :: r2.2)

/-- The token id a finished Distribution yields: the selection of the terminal
stage, or the sentinel -1 when no entry was selected (the C ABI result is a
plain i32, so an empty candidate set cannot be reported as an error and
degrades to the sentinel). -/
def selectedToken (d : Distribution) : Int :=
  match d.selected with
  | some t => t
  | none => -1

/-- Modelled from the spec (sections 2 and 6, llama_sampler_sample): read the
logit row of the context at the given index, build the Distribution, run every
stage in registered order and return the chosen token id together with the
chain state after the step.  The context is modelled as the map from row index
to logit row. -/
def llama_sampler_sample (c : LlamaSampler) (ctx : Int → List ℝ) (idx : Int) :
    Int × LlamaSampler :=
  let r := runStages c (fromLogits (ctx idx))
  (selectedToken r.1, r.2)

/-- Modelled from the spec (sections 3 and 4.2, llama_sampler_accept): update
the History of one stage for an accepted token.  A penalty stage pushes the
token into its ring buffer, bounded to the last penalty_last_n entries; a
mirostat stage moves its mu tracker by eta * (tau - observed surprise), where
the observed surprise comes from the probability the stage recorded for the
token when it last sampled; every other stage is untouched. -/
def llama_sampler_accept_stage (t : Int) (st : StageState) : StageState :=
  match st.kind with
  | .penalties _ _ _ lastN _ _ _ _ _ =>
      { st with ring := (t :: st.ring).take lastN.toNat }
  | .mirostat _ _ tau eta _ =>
      match lookupProb t st.lastProbs with
      | some p => { st with mu := st.mu + (eta : ℝ) * ((tau : ℝ) - surpriseOf p) }
      | none => st
  | .mirostat_v2 _ tau eta =>
      match lookupProb t st.lastProbs with
      | some p => { st with mu := st.mu + (eta : ℝ) * ((tau : ℝ) - surpriseOf p) }
      | none => st
  | _ => st

/-- Modelled from the spec (section 4, llama_sampler_accept): accepting a
token updates the History of every stage. -/
def llama_sampler_accept (c : LlamaSampler) (t : Int) : LlamaSampler :=
  c.map (llama_sampler_accept_stage t)

/-- Modelled from the spec (section 4, llama_sampler_reset): reset returns
every stage to its freshly constructed state, clearing ring buffers and mu
trackers while keeping the configured parameters and the stage order. -/
def llama_sampler_reset (c : LlamaSampler) : LlamaSampler :=
  c.map (fun s => initStage s.kind)

/-- Modelled from the spec (section 6, llama_sampler_chain_add): append one
stage at the tail of the chain. -/
def llama_sampler_chain_add (c : LlamaSampler) (st : StageState) : LlamaSampler :=
  c ++ [st]

/-- Modelled from the spec (section 7): llama_sampler_init_top_p validates the
nucleus parameters at construction time; p must lie in the closed unit
interval and min_keep must be at least one.  In the Rust wrapper a failed
construction surfaces as the panic of the expect call inside add_top_p. -/
def llama_sampler_init_top_p (p : ℚ) (min_keep : Nat) :
    Except ConstructionError StageState :=
  if p < 0 ∨ 1 < p then .error .invalidParam
  else if min_keep = 0 then .error .invalidParam
  else .ok (initStage (.top_p p min_keep))

/-- Modelled from the spec (section 7): llama_sampler_init_penalties validates
its parameters at construction time; penalty_last_n must not be negative. -/
def llama_sampler_init_penalties (n_vocab special_eos_id linefeed_id : Int)
    (penalty_last_n : Int) (penalty_repeat penalty_freq penalty_presence : ℚ)
    (penalize_nl ignore_eos : Bool) : Except ConstructionError StageState :=
  if penalty_last_n < 0 then .error .invalidParam
  else .ok (initStage (.penalties n_vocab special_eos_id linefeed_id penalty_last_n
    penalty_repeat penalty_freq penalty_presence penalize_nl ignore_eos))

/-- Embedding of LlamaSamplerChainParams (sampler_chain/params.rs): the only
exposed field is no_perf. -/
structure LlamaSamplerChainParams where
  no_perf : Bool

/-- Embedding of llama_sampler_chain_default_params as documented in
params.rs: the default has no_perf set to true. -/
def llama_sampler_chain_default_params : LlamaSamplerChainParams :=
  ⟨true⟩

/-- Embedding of LlamaSamplerChainParams::with_no_perf. -/
def LlamaSamplerChainParams.with_no_perf (p : LlamaSamplerChainParams) (b : Bool) :
    LlamaSamplerChainParams :=
  { p with no_perf := b }

/-- Embedding of LlamaSampler::new: initialize an empty sampler chain. -/
def LlamaSampler.new (_params : LlamaSamplerChainParams) : LlamaSampler :=
  []

/-- Embedding of LlamaSampler::add_dist: initialize a distribution sampler
with the given seed and add it to the chain. -/
def LlamaSampler.add_dist (c : LlamaSampler) (seed : Nat) : LlamaSampler :=
  llama_sampler_chain_add c (initStage (.dist seed))

/-- Embedding of LlamaSampler::add_top_k. -/
def LlamaSampler.add_top_k (c : LlamaSampler) (k : Nat) : LlamaSampler :=
  llama_sampler_chain_add c (initStage (.top_k k))

/-- Embedding of LlamaSampler::add_top_p: the stage is constructed by
llama_sampler_init_top_p before being appended, so an invalid parameter fails
here, inside the builder call, not at sampling time. -/
def LlamaSampler.add_top_p (c : LlamaSampler) (p : ℚ) (min_keep : Nat) :
    Except ConstructionError LlamaSampler :=
  (llama_sampler_init_top_p p min_keep).map (llama_sampler_chain_add c)

/-- Embedding of LlamaSampler::add_min_p. -/
def LlamaSampler.add_min_p (c : LlamaSampler) (p : ℚ) (min_keep : Nat) : LlamaSampler :=
  llama_sampler_chain_add c (initStage (.min_p p min_keep))

/-- Embedding of LlamaSampler::add_temp. -/
def LlamaSampler.add_temp (c : LlamaSampler) (t : ℚ) : LlamaSampler :=
  llama_sampler_chain_add c (initStage (.temp t))

/-- Embedding of LlamaSampler::add_softmax. -/
def LlamaSampler.add_softmax (c : LlamaSampler) : LlamaSampler :=
  llama_sampler_chain_add c (initStage .softmax)

/-- Embedding of LlamaSampler::add_penalties: the stage is constructed by
llama_sampler_init_penalties before being appended, so an invalid parameter
fails here, inside the builder call, not at sampling time. -/
def LlamaSampler.add_penalties (c : LlamaSampler) (n_vocab special_eos_id linefeed_id : Int)
    (penalty_last_n : Int) (penalty_repeat penalty_freq penalty_presence : ℚ)
    (penalize_nl ignore_eos : Bool) : Except ConstructionError LlamaSampler :=
  (llama_sampler_init_penalties n_vocab special_eos_id linefeed_id penalty_last_n
    penalty_repeat penalty_freq penalty_presence penalize_nl ignore_eos).map
    (llama_sampler_chain_add c)

/-- Embedding of LlamaSampler::add_greedy. -/
def LlamaSampler.add_greedy (c : LlamaSampler) : LlamaSampler :=
  llama_sampler_chain_add c (initStage .greedy)

/-- Embedding of LlamaSampler::add_mirostat. -/
def LlamaSampler.add_mirostat (c : LlamaSampler) (n_vocab : Int) (seed : Nat)
    (tau eta : ℚ) (m : Int) : LlamaSampler :=
  llama_sampler_chain_add c (initStage (.mirostat n_vocab seed tau eta m))

/-- Embedding of LlamaSampler::add_mirostat_v2. -/
def LlamaSampler.add_mirostat_v2 (c : LlamaSampler) (seed : Nat) (tau eta : ℚ) :
    LlamaSampler :=
  llama_sampler_chain_add c (initStage (.mirostat_v2 seed tau eta))

/-- Embedding of i32::try_from on a u32 value: succeeds exactly when the value
fits in a signed 32-bit integer. -/
def i32_try_from (i : Nat) : Option Int :=
  if i ≤ 2147483647 then some (i : Int) else none

/-- Embedding of the index conversion in LlamaSampler::sample (line 234 of
sampler_chain.rs): idx.map(i32::try_from(i).unwrap automatically replaced by
-1).unwrap_or(-1). -/
def sampleIdxArg (idx : Option Nat) : Int :=
  (idx.map (fun i => (i32_try_from i).getD (-1))).getD (-1)

/-- Embedding of LlamaSampler::sample (lines 233-239 of sampler_chain.rs): the
index option is converted to the C index and the call is forwarded to
llama_sampler_sample.  The Rust signature returns a plain LlamaToken and has
no error path; the result is embedded as an Except that is always ok so that
the error claims of the spec can be stated against it. -/
def LlamaSampler.sample (c : LlamaSampler) (ctx : Int → List ℝ) (idx : Option Nat) :
    Except SampleError (Int × LlamaSampler) :=
  .ok (llama_sampler_sample c ctx (sampleIdxArg idx))

/-- Embedding of LlamaSampler::accept (lines 242-246 of sampler_chain.rs):
forwarded to llama_sampler_accept. -/
def LlamaSampler.accept (c : LlamaSampler) (t : Int) : LlamaSampler :=
  llama_sampler_accept c t

/-- Embedding of LlamaSampler::reset (lines 226-230 of sampler_chain.rs):
forwarded to llama_sampler_reset. -/
def LlamaSampler.reset (c : LlamaSampler) : LlamaSampler :=
  llama_sampler_reset c

/-- A concrete one-stage chain (a single greedy terminal stage) used as the
explicit input of the empty-vocabulary scenario. -/
def chainC1 : LlamaSampler :=
  [initStage .greedy]

/-- A concrete mirostat v2 stage state used as the explicit input of the mu
update scenario: tau = 5, eta = 1/10, current mu = 10, and the probability
recorded for token 1 at the last sampling step is 1/8 (observed surprise 3). -/
def stC9 : StageState :=
  ⟨.mirostat_v2 7 5 (1 / 10), [], 10, [(1, 1 / 8)], 0⟩

/-- A one-stage chain holding the concrete mirostat v2 stage. -/
def cC9 : LlamaSampler :=
  [stC9]

/-- One stage step never touches the History of the stage: the ring buffer
and the mu tracker after applyStage equal the ones before. -/
theorem applyStage_historyOf (st : StageState) (d : Distribution) :
    historyOf (applyStage st d).2 = historyOf st := by
  cases hk : st.kind <;> simp [applyStage, hk, historyOf]

/-- Running the whole chain over a Distribution leaves the History of every
stage unchanged. -/
theorem runStages_chainHistory (c : List StageState) (d : Distribution) :
    chainHistory (runStages c d).2 = chainHistory c := by
  induction c generalizing d with
  | nil => rfl
  | cons s rest ih =>
    simp only [runStages, chainHistory, List.map_cons]
    rw [applyStage_historyOf]
    have := ih (applyStage s d).1
    simpa [chainHistory] using this

/-- Every stage maps the empty Distribution to the empty Distribution with no
selection. -/
theorem applyStage_nilDist (st : StageState) :
    (applyStage st ⟨[], none⟩).1 = ⟨[], none⟩ := by
  cases hk : st.kind <;>
    simp [applyStage, hk, tempEntries, softmaxEntries, topKEntries, topPEntries,
      minPEntries, penaltiesEntries, greedySelect, sortDescEntries, pickByMass,
      massPrefixLen, List.insertionSort]

/-- Running any chain over the empty Distribution yields the empty
Distribution with no selection. -/
theorem runStages_nilDist (c : List StageState) :
    (runStages c ⟨[], none⟩).1 = ⟨[], none⟩ := by
  induction c with
  | nil => rfl
  | cons s rest ih => simp [runStages, applyStage_nilDist, ih]

/-- Running a concatenated chain first runs the left part, then runs the
right part on the Distribution the left part produced. -/
theorem runStages_append (c1 c2 : List StageState) (d : Distribution) :
    runStages (c1 ++ c2) d
      = ((runStages c2 (runStages c1 d).1).1,
         (runStages c1 d).2 ++ (runStages c2 (runStages c1 d).1).2) := by
  induction c1 generalizing d with
  | nil => simp [runStages]
  | cons s rest ih => simp [runStages, ih]

/-- Claim C1 (counterexample): on an empty vocabulary the sample call of the
wrapper does not report EmptyDistributionError; it returns the plain sentinel
token id -1 and the unchanged chain.  The wrapper sample has no error path at
all, so the usage error the claim requires is never produced. -/
theorem C1_counterexample :
    LlamaSampler.sample chainC1 (fun _ => []) none = Except.ok (-1, chainC1)
    ∧ LlamaSampler.sample chainC1 (fun _ => []) none
        ≠ Except.error SampleError.emptyDistribution := by
  constructor
  · rfl
  · intro h
    exact Except.noConfusion
      (show (Except.ok ((-1 : Int), chainC1) : Except SampleError (Int × LlamaSampler))
          = Except.error SampleError.emptyDistribution from h)

/-- Claim C1 (amended): a sample call on an empty Distribution (vocabulary
size 0) reports no error to the caller; the wrapper sample is infallible and
returns the sentinel token id -1, and all History state is unchanged. -/
theorem C1_amended_empty_sample_is_sentinel :
    ∀ (c : LlamaSampler) (ctx : Int → List ℝ) (idx : Option Nat),
      ctx (sampleIdxArg idx) = [] →
      ∃ c2, LlamaSampler.sample c ctx idx = Except.ok (-1, c2)
        ∧ chainHistory c2 = chainHistory c := by
  intro c ctx idx h
  refine ⟨(runStages c (fromLogits (ctx (sampleIdxArg idx)))).2, ?_, runStages_chainHistory c _⟩
  simp only [LlamaSampler.sample, llama_sampler_sample, h]
  have hfl : fromLogits ([] : List ℝ) = ⟨[], none⟩ := rfl
  rw [hfl, runStages_nilDist]
  rfl

/-- Claim C1 (witness for the amended theorem): the hypothesis is satisfied by
the concrete greedy chain over the empty-logits context. -/
theorem C1_amended_witness :
    ((fun _ => ([] : List ℝ)) (sampleIdxArg none) = ([] : List ℝ))
    ∧ ∃ c2, LlamaSampler.sample chainC1 (fun _ => []) none = Except.ok (-1, c2)
        ∧ chainHistory c2 = chainHistory chainC1 :=
  ⟨rfl, C1_amended_empty_sample_is_sentinel chainC1 (fun _ => []) none rfl⟩

/-- Claim C2: invalid stage parameters (p outside the closed unit interval or
min_keep = 0 for the nucleus stage, negative penalty_last_n for the penalty
stage) produce the construction error inside the add builder call itself,
while a sample call never produces a construction failure: the wrapper sample
is a total function returning an ok token result for every chain. -/
theorem C2_construction_errors_are_eager :
    (∀ (c : LlamaSampler) (p : ℚ) (min_keep : Nat),
        p < 0 ∨ 1 < p ∨ min_keep = 0 →
        LlamaSampler.add_top_p c p min_keep = Except.error ConstructionError.invalidParam)
    ∧ (∀ (c : LlamaSampler) (nv eos nl pln : Int) (pr pf pp : ℚ) (pnl ieos : Bool),
        pln < 0 →
        LlamaSampler.add_penalties c nv eos nl pln pr pf pp pnl ieos
          = Except.error ConstructionError.invalidParam)
    ∧ (∀ (c : LlamaSampler) (ctx : Int → List ℝ) (idx : Option Nat),
        ∃ r, LlamaSampler.sample c ctx idx = Except.ok r) := by
  refine ⟨?_, ?_, ?_⟩
  · intro c p mk h
    rcases h with h | h | h
    · simp [LlamaSampler.add_top_p, llama_sampler_init_top_p, h, Except.map]
    · simp [LlamaSampler.add_top_p, llama_sampler_init_top_p, h, Except.map]
    · by_cases h01 : p < 0 ∨ 1 < p
      · simp [LlamaSampler.add_top_p, llama_sampler_init_top_p, h01, Except.map]
      · simp [LlamaSampler.add_top_p, llama_sampler_init_top_p, h01, h, Except.map]
  · intro c nv eos nl pln pr pf pp pnl ieos h
    simp [LlamaSampler.add_penalties, llama_sampler_init_penalties, h, Except.map]
  · intro c ctx idx
    exact ⟨_, rfl⟩

/-- Claim C2 (witness): p = 2 with min_keep = 1 fails inside add_top_p, and
penalty_last_n = -1 fails inside add_penalties, both on the empty chain. -/
theorem C2_witness :
    ((2 : ℚ) < 0 ∨ 1 < (2 : ℚ) ∨ (1 : Nat) = 0)
    ∧ LlamaSampler.add_top_p [] 2 1 = Except.error ConstructionError.invalidParam
    ∧ ((-1 : Int) < 0)
    ∧ LlamaSampler.add_penalties [] 32000 2 13 (-1) 1 0 0 true false
        = Except.error ConstructionError.invalidParam :=
  ⟨by decide, C2_construction_errors_are_eager.1 [] 2 1 (by decide),
   by decide,
   C2_construction_errors_are_eager.2.1 [] 32000 2 13 (-1) 1 0 0 true false (by decide)⟩

/-- Claim C4: sampling never updates History; whatever token a sample call
returns, the ring buffers and mu trackers of every stage are identical to
their state before the call (they change only through accept). -/
theorem C4_sample_never_updates_history :
    ∀ (c : LlamaSampler) (ctx : Int → List ℝ) (idx : Option Nat),
      (LlamaSampler.sample c ctx idx).map (fun r => chainHistory r.2)
        = Except.ok (chainHistory c) := by
  intro c ctx idx
  simp only [LlamaSampler.sample, llama_sampler_sample, Except.map]
  rw [runStages_chainHistory]

/-- Claim C5: reset clears all History state, returning every ring buffer to
empty and every mu tracker to its initial value, while the stage kinds (the
configured parameters) and their registered order are unchanged. -/
theorem C5_reset_clears_history_keeps_stages :
    ∀ c : LlamaSampler,
      (LlamaSampler.reset c).map StageState.kind = c.map StageState.kind
      ∧ ∀ st ∈ LlamaSampler.reset c,
          st.ring = [] ∧ st.mu = initMu st.kind ∧ st.lastProbs = [] ∧ st.draws = 0 := by
  intro c
  constructor
  · simp only [LlamaSampler.reset, llama_sampler_reset, List.map_map]
    rfl
  · intro st hst
    simp only [LlamaSampler.reset, llama_sampler_reset, List.mem_map] at hst
    obtain ⟨s, _, rfl⟩ := hst
    simp [initStage]

/-- Claim C6: the chain starts empty, each add builder appends exactly one
freshly constructed stage at the tail (leaving all previously added stages
and their relative order untouched), and sampling runs a concatenated chain
in registered order: the appended stages transform the Distribution produced
by the stages before them. -/
theorem C6_builders_append_and_sample_runs_in_order :
    ∀ c : LlamaSampler,
      (∀ prms, LlamaSampler.new prms = [])
      ∧ (∀ seed, LlamaSampler.add_dist c seed = c ++ [initStage (.dist seed)])
      ∧ (∀ k, LlamaSampler.add_top_k c k = c ++ [initStage (.top_k k)])
      ∧ (∀ seed tau eta,
          LlamaSampler.add_mirostat_v2 c seed tau eta
            = c ++ [initStage (.mirostat_v2 seed tau eta)])
      ∧ LlamaSampler.add_greedy c = c ++ [initStage .greedy]
      ∧ (∀ (c2 : LlamaSampler) (d : Distribution),
          runStages (c ++ c2) d
            = ((runStages c2 (runStages c d).1).1,
               (runStages c d).2 ++ (runStages c2 (runStages c d).1).2)) := by
  intro c
  exact ⟨fun _ => rfl, fun _ => rfl, fun _ => rfl, fun _ _ _ => rfl, rfl,
    fun c2 d => runStages_append c c2 d⟩

/-- Claim C10: the index option of the wrapper sample is converted before the
call into the underlying sampler; none becomes -1, a value that fits in a
signed 32-bit integer passes through unchanged, and a larger value silently
falls back to -1, making the call indistinguishable from passing none. -/
theorem C10_sample_idx_conversion :
    (∀ (c : LlamaSampler) (ctx : Int → List ℝ),
        LlamaSampler.sample c ctx none = Except.ok (llama_sampler_sample c ctx (-1)))
    ∧ (∀ (c : LlamaSampler) (ctx : Int → List ℝ) (i : Nat), i ≤ 2147483647 →
        LlamaSampler.sample c ctx (some i) = Except.ok (llama_sampler_sample c ctx (i : Int)))
    ∧ (∀ (c : LlamaSampler) (ctx : Int → List ℝ) (i : Nat), 2147483647 < i →
        LlamaSampler.sample c ctx (some i) = LlamaSampler.sample c ctx none) := by
  refine ⟨fun c ctx => rfl, ?_, ?_⟩
  · intro c ctx i h
    simp [LlamaSampler.sample, sampleIdxArg, i32_try_from, h]
  · intro c ctx i h
    simp [LlamaSampler.sample, sampleIdxArg, i32_try_from, Nat.not_le.mpr h]

/-- Claim C10 (witness): index 5 passes through as 5; index 2147483648 (one
above the i32 maximum) collapses to the same call as passing none. -/
theorem C10_witness :
    ((5 : Nat) ≤ 2147483647
      ∧ LlamaSampler.sample [] (fun _ => []) (some 5)
          = Except.ok (llama_sampler_sample [] (fun _ => []) ((5 : Nat) : Int)))
    ∧ (2147483647 < (2147483648 : Nat)
      ∧ LlamaSampler.sample [] (fun _ => []) (some 2147483648)
          = LlamaSampler.sample [] (fun _ => []) none) :=
  ⟨⟨by decide, C10_sample_idx_conversion.2.1 [] (fun _ => []) 5 (by decide)⟩,
   ⟨by decide, C10_sample_idx_conversion.2.2 [] (fun _ => []) 2147483648 (by decide)⟩⟩

/-- Claim C7: the top-k stage retains exactly min k N entries; retained and
discarded entries together are a permutation of the input, and every retained
value dominates every discarded value. -/
theorem C7_top_k_count_and_dominance :
    ∀ (l : List (Int × ℝ)) (k : Nat),
      (topKEntries k l).length = min k l.length
      ∧ (topKEntries k l ++ topKDiscarded k l).Perm l
      ∧ ∀ x ∈ topKEntries k l, ∀ y ∈ topKDiscarded k l, y.2 ≤ x.2 := by
  intro l k
  refine ⟨?_, ?_, ?_⟩
  · simp [topKEntries, sortDescEntries, List.length_take, List.length_insertionSort]
  · rw [topKEntries, topKDiscarded, List.take_append_drop]
    exact List.perm_insertionSort descRel l
  · intro x hx y hy
    have hs : List.Pairwise descRel (sortDescEntries l) :=
      List.sorted_insertionSort descRel l
    rw [← List.take_append_drop k (sortDescEntries l)] at hs
    rw [topKEntries] at hx
    rw [topKDiscarded] at hy
    have hrel : descRel x y := (List.pairwise_append.mp hs).2.2 x hx y hy
    rcases hrel with h | ⟨h, _⟩
    · exact le_of_lt h
    · exact le_of_eq h.symm

/-- Claim C7 (witness): for the two-entry list with values 7 and 5 and k = 1,
the retained entry (0, 7) dominates the discarded entry (1, 5), and exactly
min 1 2 entries are retained. -/
theorem C7_witness :
    (topKEntries 1 [((0 : Int), (7 : ℝ)), (1, 5)]).length
        = min 1 ([((0 : Int), (7 : ℝ)), (1, 5)] : List (Int × ℝ)).length
    ∧ ((0, 7) ∈ topKEntries 1 [((0 : Int), (7 : ℝ)), (1, 5)])
    ∧ ((1, 5) ∈ topKDiscarded 1 [((0 : Int), (7 : ℝ)), (1, 5)])
    ∧ (((1, 5) : Int × ℝ).2 ≤ ((0, 7) : Int × ℝ).2) := by
  have h1 : descRel ((0 : Int), (7 : ℝ)) (1, 5) := Or.inl (by norm_num)
  have hsort : sortDescEntries [((0 : Int), (7 : ℝ)), (1, 5)] = [(0, 7), (1, 5)] := by
    simp [sortDescEntries, List.insertionSort, List.orderedInsert, h1]
  have hmem1 : ((0 : Int), (7 : ℝ)) ∈ topKEntries 1 [((0 : Int), (7 : ℝ)), (1, 5)] := by
    simp [topKEntries, hsort]
  have hmem2 : ((1 : Int), (5 : ℝ)) ∈ topKDiscarded 1 [((0 : Int), (7 : ℝ)), (1, 5)] := by
    simp [topKDiscarded, hsort]
  exact ⟨(C7_top_k_count_and_dominance [((0 : Int), (7 : ℝ)), (1, 5)] 1).1, hmem1, hmem2,
    (C7_top_k_count_and_dominance [((0 : Int), (7 : ℝ)), (1, 5)] 1).2.2
      (0, 7) hmem1 (1, 5) hmem2⟩

/-- Claim C5 (witness): the reset of a concrete one-stage top-k chain keeps
the stage kind and clears the state of the contained stage. -/
theorem C5_witness :
    ((LlamaSampler.reset [initStage (.top_k 40)]).map StageState.kind
        = [initStage (.top_k 40)].map StageState.kind)
    ∧ ((initStage (.top_k 40)).ring = []
        ∧ (initStage (.top_k 40)).mu = initMu (initStage (.top_k 40)).kind
        ∧ (initStage (.top_k 40)).lastProbs = []
        ∧ (initStage (.top_k 40)).draws = 0) :=
  ⟨(C5_reset_clears_history_keeps_stages [initStage (.top_k 40)]).1,
   (C5_reset_clears_history_keeps_stages [initStage (.top_k 40)]).2
     (initStage (.top_k 40)) (List.mem_singleton.mpr rfl)⟩

/-- Claim C8: on a non-empty entry list the greedy selection returns an entry
of the list whose value is maximal, and among the entries of maximal value it
has the lowest token id.  Determinism is immediate: greedySelect is a pure
function of the entry list and takes no RNG input. -/
theorem C8_greedy_max_value_lowest_id :
    ∀ l : List (Int × ℝ), l ≠ [] →
      ∃ b, greedySelect l = some b ∧ b ∈ l
        ∧ (∀ p ∈ l, p.2 ≤ b.2) ∧ (∀ p ∈ l, p.2 = b.2 → b.1 ≤ p.1) := by
  intro l
  induction l with
  | nil => intro h; exact absurd rfl h
  | cons e rest ih =>
    intro _
    by_cases hre : rest = []
    · subst hre
      refine ⟨e, rfl, by simp, ?_, ?_⟩
      · intro p hp
        rcases List.mem_singleton.mp hp with rfl
        exact le_refl _
      · intro p hp _
        rcases List.mem_singleton.mp hp with rfl
        exact le_refl _
    · obtain ⟨b, hb, hmem, hmax, htie⟩ := ih hre
      have hsel : greedySelect (e :: rest)
          = if b.2 < e.2 ∨ (e.2 = b.2 ∧ e.1 < b.1) then some e else some b := by
        simp only [greedySelect, hb]
      by_cases hc : b.2 < e.2 ∨ (e.2 = b.2 ∧ e.1 < b.1)
      · refine ⟨e, by rw [hsel, if_pos hc], List.mem_cons_self e rest, ?_, ?_⟩
        · intro p hp
          rcases List.mem_cons.mp hp with rfl | hp2
          · exact le_refl _
          · rcases hc with h | ⟨h, _⟩
            · exact (hmax p hp2).trans (le_of_lt h)
            · exact (hmax p hp2).trans (le_of_eq h.symm)
        · intro p hp hpe
          rcases List.mem_cons.mp hp with rfl | hp2
          · exact le_refl _
          · rcases hc with h | ⟨heq, hlt⟩
            · have := hmax p hp2
              exfalso
              linarith
            · exact le_of_lt (lt_of_lt_of_le hlt (htie p hp2 (hpe.trans heq)))
      · have hcneg : ¬(b.2 < e.2 ∨ (e.2 = b.2 ∧ e.1 < b.1)) := hc
        push_neg at hc
        refine ⟨b, by rw [hsel, if_neg hcneg], List.mem_cons_of_mem _ hmem, ?_, ?_⟩
        · intro p hp
          rcases List.mem_cons.mp hp with rfl | hp2
          · exact hc.1
          · exact hmax p hp2
        · intro p hp hpe
          rcases List.mem_cons.mp hp with rfl | hp2
          · exact hc.2 hpe
          · exact htie p hp2 hpe

/-- Claim C8 (witness): a crafted tie case; tokens 1 and 2 share the maximal
value 2, token 3 has value 1, and the selection properties hold for it. -/
theorem C8_witness :
    ([((3 : Int), (1 : ℝ)), (1, 2), (2, 2)] ≠ ([] : List (Int × ℝ)))
    ∧ ∃ b, greedySelect [((3 : Int), (1 : ℝ)), (1, 2), (2, 2)] = some b
        ∧ b ∈ [((3 : Int), (1 : ℝ)), (1, 2), (2, 2)]
        ∧ (∀ p ∈ [((3 : Int), (1 : ℝ)), (1, 2), (2, 2)], p.2 ≤ b.2)
        ∧ (∀ p ∈ [((3 : Int), (1 : ℝ)), (1, 2), (2, 2)], p.2 = b.2 → b.1 ≤ p.1) :=
  ⟨by simp, C8_greedy_max_value_lowest_id [((3 : Int), (1 : ℝ)), (1, 2), (2, 2)] (by simp)⟩

/-- Claim C9: accepting a token on a chain containing a mirostat stage (v1 or
v2) with parameters tau and eta, whose observed surprise for the accepted
token is s (minus the base-two logarithm of the probability the stage
recorded for it), moves the mu tracker of that stage to mu + eta * (tau - s),
leaving its parameters and ring buffer unchanged. -/
theorem C9_mirostat_mu_update :
    ∀ (ch : LlamaSampler) (i : Nat) (st : StageState) (tau eta : ℚ) (t : Int) (p s : ℝ),
      ch[i]? = some st →
      ((∃ nv seed m, st.kind = .mirostat nv seed tau eta m)
        ∨ (∃ seed, st.kind = .mirostat_v2 seed tau eta)) →
      lookupProb t st.lastProbs = some p →
      -(Real.logb 2 p) = s →
      ∃ st2, (LlamaSampler.accept ch t)[i]? = some st2
        ∧ st2.mu = st.mu + (eta : ℝ) * ((tau : ℝ) - s)
        ∧ st2.kind = st.kind ∧ st2.ring = st.ring := by
  intro ch i st tau eta t p s hget hk hp hs
  have hmap : (LlamaSampler.accept ch t)[i]? = some (llama_sampler_accept_stage t st) := by
    simp [LlamaSampler.accept, llama_sampler_accept, List.getElem?_map, hget]
  refine ⟨llama_sampler_accept_stage t st, hmap, ?_, ?_, ?_⟩
  · rcases hk with ⟨nv, seed, m, hk⟩ | ⟨seed, hk⟩ <;>
      simp [llama_sampler_accept_stage, hk, hp, surpriseOf, hs]
  · rcases hk with ⟨nv, seed, m, hk⟩ | ⟨seed, hk⟩ <;>
      simp [llama_sampler_accept_stage, hk, hp]
  · rcases hk with ⟨nv, seed, m, hk⟩ | ⟨seed, hk⟩ <;>
      simp [llama_sampler_accept_stage, hk, hp]

/-- Claim C9 (witness): tau = 5, eta = 1/10, recorded probability 1/8 for
token 1, hence observed surprise 3; accepting token 1 moves mu of the
concrete stage from 10 to 10 + (1/10) * (5 - 3). -/
theorem C9_witness :
    cC9[0]? = some stC9
    ∧ (∃ seed, stC9.kind = .mirostat_v2 seed 5 (1 / 10))
    ∧ lookupProb 1 stC9.lastProbs = some (1 / 8)
    ∧ -(Real.logb 2 ((1 : ℝ) / 8)) = 3
    ∧ ∃ st2, (LlamaSampler.accept cC9 1)[0]? = some st2
        ∧ st2.mu = stC9.mu + ((1 / 10 : ℚ) : ℝ) * (((5 : ℚ) : ℝ) - 3)
        ∧ st2.kind = stC9.kind ∧ st2.ring = stC9.ring := by
  have hlog : -(Real.logb 2 ((1 : ℝ) / 8)) = 3 := by
    have h8 : ((1 : ℝ) / 8) = ((2 : ℝ) ^ (3 : ℕ))⁻¹ := by norm_num
    rw [h8, Real.logb_inv, Real.logb_pow, Real.logb_self_eq_one (by norm_num)]
    norm_num
  refine ⟨rfl, ⟨7, rfl⟩, rfl, hlog, ?_⟩
  exact C9_mirostat_mu_update cC9 0 stC9 5 (1 / 10) 1 (1 / 8) 3 rfl
    (Or.inr ⟨7, rfl⟩) rfl hlog

end
